import Mathlib

/-!
Verification development for the mirrord core: shallow embeddings of the
agent's file manager, TCP sniffer, iptables chain handling, path resolution
and the DNS protocol conversions, with theorems about the specified
properties.
-/

set_option maxHeartbeats 1000000

/-- Decidable equality for Except values, used to evaluate the executable
models on concrete inputs. -/
instance (ε α : Type) [DecidableEq ε] [DecidableEq α] :
    DecidableEq (Except ε α) := fun x y =>
  match x, y with
  | Except.ok a, Except.ok b =>
      if h : a = b then Decidable.isTrue (by rw [h])
      else Decidable.isFalse (by intro hh; cases hh; exact h rfl)
  | Except.error a, Except.error b =>
      if h : a = b then Decidable.isTrue (by rw [h])
      else Decidable.isFalse (by intro hh; cases hh; exact h rfl)
  | Except.ok _, Except.error _ => Decidable.isFalse (by intro hh; cases hh)
  | Except.error _, Except.ok _ => Decidable.isFalse (by intro hh; cases hh)

/-! ### DNS request conversions (mirrord/protocol/src/dns.rs) -/

/-- Embeds the Rust enum AddressFamily from mirrord/protocol/src/dns.rs. -/
inductive AddressFamily
  | Ipv4Only
  | Ipv6Only
  | Both
  | Any
  | UnknownAddressFamilyFromNewerClient
deriving DecidableEq, Repr

/-- Embeds the Rust enum SockType from mirrord/protocol/src/dns.rs. -/
inductive SockType
  | Stream
  | Dgram
  | Any
  | UnknownSockTypeFromNewerClient
deriving DecidableEq, Repr

/-- Embeds GetAddrInfoRequest: the v1 DNS request, carrying only the hostname. -/
structure GetAddrInfoRequest where
  node : String
deriving DecidableEq, Repr

/-- Embeds GetAddrInfoRequestV2: the v2 DNS request. Ports are u16, flags and
protocol are i32; the wrapping behaviour of those integers is irrelevant here
because the conversions only copy them. -/
structure GetAddrInfoRequestV2 where
  node : String
  service_port : Nat
  family : AddressFamily
  socktype : SockType
  flags : Int
  protocol : Int
deriving DecidableEq, Repr

/-- Embeds the impl From of GetAddrInfoRequestV2 for GetAddrInfoRequest
(the downgrade used when the peer does not support v2). -/
def requestFromV2 (v : GetAddrInfoRequestV2) : GetAddrInfoRequest :=
  { node := v.node }

/-- Embeds the impl From of GetAddrInfoRequest for GetAddrInfoRequestV2
(the upgrade, filling defaults). -/
def requestToV2 (v : GetAddrInfoRequest) : GetAddrInfoRequestV2 :=
  { node := v.node
    service_port := 0
    flags := 0
    family := AddressFamily.Ipv4Only
    socktype := SockType.Any
    protocol := 0 }

/-! ### TCP session identifier (mirrord/agent/src/sniffer.rs) -/

/-- Embeds TcpSessionIdentifier. Ipv4 addresses are modelled as the Nat value
of their u32 representation, ports as the Nat value of their u16. -/
structure TcpSessionIdentifier where
  source_addr : Nat
  dest_addr : Nat
  source_port : Nat
  dest_port : Nat
deriving DecidableEq, Repr

/-- Embeds the impl PartialEq for TcpSessionIdentifier: equal when the 4-tuple
is the same, or when it is the exact source/destination reversal. -/
def tcpSessionEq (a b : TcpSessionIdentifier) : Bool :=
  (a.source_addr == b.source_addr && a.dest_addr == b.dest_addr
      && a.source_port == b.source_port && a.dest_port == b.dest_port)
    || (a.source_addr == b.dest_addr && a.dest_addr == b.source_addr
      && a.source_port == b.dest_port && a.dest_port == b.source_port)

/-- Embeds the impl Hash for TcpSessionIdentifier as the exact sequence of
values fed to the hasher: the larger address first, then the smaller, then
the larger port, then the smaller. Two identifiers hash equal (under every
hasher) exactly when these sequences are equal. -/
def tcpSessionHashInput (a : TcpSessionIdentifier) : List Nat :=
  (if a.source_addr > a.dest_addr
    then [a.source_addr, a.dest_addr]
    else [a.dest_addr, a.source_addr])
  ++ (if a.source_port > a.dest_port
    then [a.source_port, a.dest_port]
    else [a.dest_port, a.source_port])

/-- The canonicalization named by the spec: sort the two addresses and the
two ports independently. -/
def tcpSessionCanonical (a : TcpSessionIdentifier) : Nat × Nat × Nat × Nat :=
  (max a.source_addr a.dest_addr, min a.source_addr a.dest_addr,
   max a.source_port a.dest_port, min a.source_port a.dest_port)

/-- Full source/destination reversal of a session identifier. -/
def tcpSessionReverse (a : TcpSessionIdentifier) : TcpSessionIdentifier :=
  { source_addr := a.dest_addr
    dest_addr := a.source_addr
    source_port := a.dest_port
    dest_port := a.source_port }

theorem tcpSessionHashInput_eq_canonical (a : TcpSessionIdentifier) :
    tcpSessionHashInput a =
      [max a.source_addr a.dest_addr, min a.source_addr a.dest_addr,
       max a.source_port a.dest_port, min a.source_port a.dest_port] := by
  rcases a with ⟨sa, da, sp, dp⟩
  simp only [tcpSessionHashInput, Nat.max_def, Nat.min_def]
  split_ifs <;> simp <;> omega

/-! ### iptables nat table and chain handles
(mirrord/agent/iptables/src/lib.rs and chain.rs) -/

/-- The nat table modelled as an association list from chain name to its list
of rules, in order. -/
abbrev NatTable : Type := List (String × List String)

/-- Rules of a chain, none when the chain is absent (first entry wins, as in a
real table chain names are unique). -/
def chainRules (t : NatTable) (name : String) : Option (List String) :=
  (List.find? (fun c => c.1 == name) t).map (fun c => c.2)

/-- Replaces the rule list of every entry of the chain. -/
def setChain (t : NatTable) (name : String) (rules : List String) : NatTable :=
  List.map (fun c => if c.1 == name then (c.1, rules) else c) t

/-- Models the iptables -N command: fails when the chain already exists,
otherwise appends an empty chain. -/
def newChain (t : NatTable) (name : String) : Except String NatTable :=
  if (chainRules t name).isSome then Except.error "chain exists"
  else Except.ok (t ++ [(name, [])])

/-- Models the iptables -A command: fails when the chain is absent, otherwise
appends the rule at the end of the chain. -/
def appendRule (t : NatTable) (name rule : String) : Except String NatTable :=
  match chainRules t name with
  | none => Except.error "no chain"
  | some rs => Except.ok (setChain t name (rs ++ [rule]))

/-- Whether some rule anywhere in the table jumps to the chain, as the
redirectors' entry rules (-j MIRRORD_INPUT and the like) do while mounted. -/
def chainReferenced (t : NatTable) (name : String) : Bool :=
  t.any (fun c => c.2.any (fun r => r == "-j " ++ name))

/-- Models the iptables -F command as a state transition: fails (table
unchanged) when the chain is absent, otherwise empties the chain. -/
def flushChainT (t : NatTable) (name : String) :
    NatTable × Except String Unit :=
  if (chainRules t name).isSome then (setChain t name [], Except.ok ())
  else (t, Except.error "no chain")

/-- Models the iptables -X command as a state transition: fails (table
unchanged) when the chain is absent, still holds rules, or is still
referenced by a jump rule elsewhere in the table; otherwise deletes it. -/
def deleteChainT (t : NatTable) (name : String) :
    NatTable × Except String Unit :=
  match chainRules t name with
  | none => (t, Except.error "no chain")
  | some rs =>
      if rs.isEmpty then
        if chainReferenced t name then (t, Except.error "chain referenced")
        else (List.filter (fun c => c.1 != name) t, Except.ok ())
      else (t, Except.error "chain not empty")

/-- Embeds IPTablesWrapper::create_chain: new_chain followed by appending the
terminal RETURN rule. -/
def createChainW (t : NatTable) (name : String) : Except String NatTable :=
  match newChain t name with
  | Except.error e => Except.error e
  | Except.ok t2 => appendRule t2 name "-j RETURN"

/-- Embeds IPTablesWrapper::remove_chain: flush_chain, then delete_chain on
the flushed table; the first command's effect persists even when the second
command fails. -/
def removeChainW (t : NatTable) (name : String) :
    NatTable × Except String Unit :=
  match flushChainT t name with
  | (t2, Except.ok _) => deleteChainT t2 name
  | (t2, Except.error e) => (t2, Except.error e)

/-- Embeds the impl Drop for IPTableChain: runs remove_chain and discards its
result, keeping whatever effect the commands that did run had on the table. -/
def dropChain (t : NatTable) (name : String) : NatTable :=
  (removeChainW t name).1

/-- Wraps an integer into the i32 range, the arithmetic of AtomicI32. -/
def wrapI32 (z : Int) : Int := (z + 2 ^ 31) % 2 ^ 32 - 2 ^ 31

/-- State of one IPTableChain handle: the shared underlying iptables state,
the owned chain name, and the atomic rule counter (an i32). -/
structure ChainState (S : Type) where
  table : S
  chain_name : String
  chain_size : Int
deriving DecidableEq

/-- The operations of the IPTables trait that IPTableChain::add_rule uses,
over an abstract underlying state (the trait is generic in the source). -/
structure IPTablesOps (S : Type) where
  insert_rule : S → String → String → Int → Except String S

/-- Embeds IPTableChain::add_rule: fetch_add returns the old counter which is
passed as the insertion index; on success the new counter value is returned,
on failure the counter is decremented back. -/
def addRule (S : Type) (ops : IPTablesOps S) (st : ChainState S) (rule : String) :
    ChainState S × Except String Int :=
  let idx := st.chain_size
  let grown := wrapI32 (st.chain_size + 1)
  match ops.insert_rule st.table st.chain_name rule idx with
  | Except.ok t2 =>
      ({ st with table := t2, chain_size := grown }, Except.ok grown)
  | Except.error e =>
      ({ st with chain_size := wrapI32 (grown - 1) }, Except.error e)

theorem wrapI32_self (z : Int) (h1 : -(2 ^ 31) ≤ z) (h2 : z < 2 ^ 31) :
    wrapI32 z = z := by
  unfold wrapI32
  omega

theorem wrapI32_rollback (z : Int) (h1 : -(2 ^ 31) ≤ z) (h2 : z < 2 ^ 31) :
    wrapI32 (wrapI32 (z + 1) - 1) = z := by
  unfold wrapI32
  omega

/-! ### Sniffer port subscriptions and BPF filter (mirrord/agent/src/sniffer.rs)

The Subscriptions container itself lives in the agent's util module, outside
the files at hand; it is modelled from the spec below. The sniffer command
handling and update_packet_filter are embedded from the source. -/

/-- Set of ports appearing in the (client, port) subscription relation: the
topics driving the BPF filter. -/
def topicsOf (subs : Finset (Nat × Nat)) : Finset Nat :=
  subs.image Prod.snd

/-- Modelled from the spec: the Subscriptions container (agent util module,
not among the given files) is a many-to-many relation between client ids and
ports; subscribe adds the pair and reports whether the set of subscribed
topics changed (true exactly for a new port). -/
def subsSubscribe (subs : Finset (Nat × Nat)) (c p : Nat) :
    Finset (Nat × Nat) × Bool :=
  let subs2 := insert (c, p) subs
  (subs2, decide (topicsOf subs2 ≠ topicsOf subs))

/-- Modelled from the spec: unsubscribe removes the pair and reports whether
the set of subscribed topics changed (true exactly when the last subscriber
of the port left). -/
def subsUnsubscribe (subs : Finset (Nat × Nat)) (c p : Nat) :
    Finset (Nat × Nat) × Bool :=
  let subs2 := subs.erase (c, p)
  (subs2, decide (topicsOf subs2 ≠ topicsOf subs))

/-- Modelled from the spec: remove_client drops every pair of the client and
reports whether the set of subscribed topics changed. -/
def subsRemoveClient (subs : Finset (Nat × Nat)) (c : Nat) :
    Finset (Nat × Nat) × Bool :=
  let subs2 := subs.filter (fun e => e.1 ≠ c)
  (subs2, decide (topicsOf subs2 ≠ topicsOf subs))

/-- Modelled from the spec: get_topic_subscribers, the set of clients
subscribed to a port. -/
def topicSubscribers (subs : Finset (Nat × Nat)) (p : Nat) : Finset Nat :=
  (subs.filter (fun e => e.2 = p)).image Prod.fst

/-- The installed BPF filter: either the drop-always program or a program
matching a set of TCP ports. -/
inductive BpfFilter
  | dropAlways
  | tcpPorts (ports : Finset Nat)
deriving DecidableEq

/-- Embeds update_packet_filter's choice of filter: drop-always when no port
is subscribed, otherwise the filter for the subscribed ports. -/
def filterFor (topics : Finset Nat) : BpfFilter :=
  if topics = ∅ then BpfFilter.dropAlways else BpfFilter.tcpPorts topics

/-- Sniffer control-plane state: the subscription relation, the connected
clients (keys of client_txs), the filter installed on the capture socket, and
a counter of filter installations (the observable of set_filter calls). -/
structure SnifferState where
  subs : Finset (Nat × Nat)
  clients : Finset Nat
  filter : BpfFilter
  installs : Nat
deriving DecidableEq

/-- Control-plane events: the three sniffer commands plus the client-closed
notification observed from the dropped sender. -/
inductive SnifferEvent
  | newClient (c : Nat)
  | subscribe (c p : Nat)
  | unsubscribePort (c p : Nat)
  | clientClosed (c : Nat)

/-- Embeds update_packet_filter: recomputes and installs the filter from the
current subscription topics. -/
def updatePacketFilter (s : SnifferState) : SnifferState :=
  { s with filter := filterFor (topicsOf s.subs), installs := s.installs + 1 }

/-- Embeds handle_command and handle_client_closed: the filter is reinstalled
exactly when the subscription container reports a change. -/
def snifferStep (s : SnifferState) (e : SnifferEvent) : SnifferState :=
  match e with
  | SnifferEvent.newClient c => { s with clients := insert c s.clients }
  | SnifferEvent.subscribe c p =>
      let r := subsSubscribe s.subs c p
      let s2 := { s with subs := r.1 }
      if r.2 then updatePacketFilter s2 else s2
  | SnifferEvent.unsubscribePort c p =>
      let r := subsUnsubscribe s.subs c p
      let s2 := { s with subs := r.1 }
      if r.2 then updatePacketFilter s2 else s2
  | SnifferEvent.clientClosed c =>
      let r := subsRemoveClient s.subs c
      let s2 := { s with clients := s.clients.erase c, subs := r.1 }
      if r.2 then updatePacketFilter s2 else s2

/-- Initial sniffer state: no subscriptions, no clients, and the drop-always
filter installed by the capture setup for the empty subscription set. -/
def snifferInit : SnifferState :=
  { subs := ∅, clients := ∅, filter := BpfFilter.dropAlways, installs := 0 }

/-- Runs the sniffer control plane over a sequence of events. -/
def snifferRun (es : List SnifferEvent) : SnifferState :=
  es.foldl snifferStep snifferInit

theorem snifferStep_filter_inv (s : SnifferState) (e : SnifferEvent)
    (h : s.filter = filterFor (topicsOf s.subs)) :
    (snifferStep s e).filter = filterFor (topicsOf (snifferStep s e).subs) := by
  cases e with
  | newClient c => simpa [snifferStep] using h
  | subscribe c p =>
      by_cases hc : topicsOf (insert (c, p) s.subs) = topicsOf s.subs <;>
        simp [snifferStep, subsSubscribe, updatePacketFilter, hc, h]
  | unsubscribePort c p =>
      by_cases hc : topicsOf (s.subs.erase (c, p)) = topicsOf s.subs <;>
        simp [snifferStep, subsUnsubscribe, updatePacketFilter, hc, h]
  | clientClosed c =>
      by_cases hc :
          topicsOf (s.subs.filter (fun e => e.1 ≠ c)) = topicsOf s.subs <;>
        simp [snifferStep, subsRemoveClient, updatePacketFilter, hc, h]

theorem snifferRun_filter_inv (es : List SnifferEvent) :
    ∀ s : SnifferState, s.filter = filterFor (topicsOf s.subs) →
      (es.foldl snifferStep s).filter =
        filterFor (topicsOf (es.foldl snifferStep s).subs) := by
  induction es with
  | nil => intro s h; simpa using h
  | cons e es ih =>
      intro s h
      exact ih (snifferStep s e) (snifferStep_filter_inv s e h)

theorem snifferStep_installs_iff (s : SnifferState) (e : SnifferEvent) :
    (snifferStep s e).installs = s.installs ↔
      topicsOf (snifferStep s e).subs = topicsOf s.subs := by
  cases e with
  | newClient c => simp [snifferStep]
  | subscribe c p =>
      by_cases hc : topicsOf (insert (c, p) s.subs) = topicsOf s.subs <;>
        simp [snifferStep, subsSubscribe, updatePacketFilter, hc]
  | unsubscribePort c p =>
      by_cases hc : topicsOf (s.subs.erase (c, p)) = topicsOf s.subs <;>
        simp [snifferStep, subsUnsubscribe, updatePacketFilter, hc]
  | clientClosed c =>
      by_cases hc :
          topicsOf (s.subs.filter (fun e => e.1 ≠ c)) = topicsOf s.subs <;>
        simp [snifferStep, subsRemoveClient, updatePacketFilter, hc]

/-! ### Sniffer packet handling (mirrord/agent/src/sniffer.rs) -/

/-- Embeds is_new_connection: SYN set (0x02) and none of ACK, RST, FIN
(0x10, 0x04, 0x01) set. -/
def isNewConnection (flags : Nat) : Bool :=
  decide (Nat.land flags 2 ≠ 0) && decide (Nat.land flags 21 = 0)

/-- Embeds is_closed_connection: FIN (0x01) or RST (0x04) set. -/
def isClosedConnection (flags : Nat) : Bool :=
  decide (Nat.land flags 5 ≠ 0)

/-- Embeds treat_as_new_session, with the HTTP/1-or-HTTP/2 start detection
(HttpVersion::new, in the agent's http module outside the files at hand) kept
as an arbitrary predicate on the payload bytes. -/
def treatAsNewSession (isHttp : List Nat → Bool) (flags : Nat)
    (bytes : List Nat) : Bool :=
  isNewConnection flags || isHttp bytes

/-- The session map, keyed by the direction-insensitive identifier with its
PartialEq, each entry carrying the number of live broadcast receivers of its
data channel. -/
abbrev SessionMap : Type := List (TcpSessionIdentifier × Nat)

/-- HashMap lookup under the custom PartialEq of the identifier. -/
def lookupSession (m : SessionMap) (id : TcpSessionIdentifier) : Option Nat :=
  (List.find? (fun e => tcpSessionEq e.1 id) m).map (fun e => e.2)

/-- HashMap entry removal under the custom PartialEq of the identifier. -/
def eraseSession (m : SessionMap) (id : TcpSessionIdentifier) : SessionMap :=
  List.filter (fun e => !tcpSessionEq e.1 id) m

/-- Outcome of delivering a SniffedConnection to one client: try_send
succeeded, the channel was closed, the queue was full, or the client had no
sender registered in client_txs at all. Only a successful try_send leaves a
live broadcast receiver with the client. -/
inductive TrySendOutcome
  | ok
  | closed
  | full
  | noTx
deriving DecidableEq

/-- Result of handle_packet: the final session map, whether a broadcast entry
was inserted for the packet, and whether an entry was removed (a transient
insert followed by removal reports both). -/
structure PacketOutcome where
  sessions : SessionMap
  inserted : Bool
  removed : Bool
deriving DecidableEq

/-- Embeds handle_packet. Inputs beyond the packet: the current subscription
relation (for get_topic_subscribers on the destination port), and the
per-client try_send outcome. A new entry starts with one live receiver per
client whose try_send succeeded; on an existing entry the live receiver count
is read from the map. The broadcast send of a non-empty payload fails exactly
when zero receivers are live, upon which the entry is dropped; otherwise a
FIN or RST packet drops the entry after the send. -/
def handlePacket (isHttp : List Nat → Bool) (subs : Finset (Nat × Nat))
    (outcome : Nat → TrySendOutcome) (m : SessionMap)
    (id : TcpSessionIdentifier) (flags : Nat) (bytes : List Nat) :
    PacketOutcome :=
  match lookupSession m id with
  | some rcv =>
      if bytes ≠ [] ∧ rcv = 0 then
        { sessions := eraseSession m id, inserted := false, removed := true }
      else if isClosedConnection flags then
        { sessions := eraseSession m id, inserted := false, removed := true }
      else
        { sessions := m, inserted := false, removed := false }
  | none =>
      if ¬ treatAsNewSession isHttp flags bytes then
        { sessions := m, inserted := false, removed := false }
      else if topicSubscribers subs id.dest_port = ∅ then
        { sessions := m, inserted := false, removed := false }
      else
        let live :=
          ((topicSubscribers subs id.dest_port).filter
            (fun c => outcome c = TrySendOutcome.ok)).card
        if bytes ≠ [] ∧ live = 0 then
          { sessions := m, inserted := true, removed := true }
        else if isClosedConnection flags then
          { sessions := m, inserted := true, removed := true }
        else
          { sessions := (id, live) :: m, inserted := true, removed := false }

/-! ### Remote file manager (mirrord/agent/src/file.rs)

The OS filesystem is abstracted as oracles (open, mkdir, read_dir); file
contents are byte lists and the kernel read/write/seek disciplines are made
explicit. The fd-table logic is embedded from the source. -/

/-- An opened OS file: its byte content and the kernel cursor position. -/
structure RemoteFileHandle where
  content : List Nat
  pos : Nat
deriving DecidableEq, Repr

/-- Embeds the RemoteFile enum: an opened file or a directory pathname. -/
inductive RemoteFile
  | file (h : RemoteFileHandle)
  | directory (path : String)
deriving DecidableEq, Repr

/-- The ResponseError variants relevant here. -/
inductive RespErr
  | notFound (fd : Nat)
  | notFile (fd : Nat)
  | notDirectory (fd : Nat)
  | idsExhausted (op : String)
  | invalidInput
  | ioError
deriving DecidableEq, Repr

/-- Embeds ReadFileResponse. -/
structure ReadFileResponse where
  bytes : List Nat
  read_amount : Nat
deriving DecidableEq, Repr

/-- Embeds WriteFileResponse. -/
structure WriteFileResponse where
  written_amount : Nat
deriving DecidableEq, Repr

/-- Embeds SeekFileResponse. -/
structure SeekFileResponse where
  result_offset : Nat
deriving DecidableEq, Repr

/-- Embeds OpenFileResponse. -/
structure OpenFileResponse where
  fd : Nat
deriving DecidableEq, Repr

/-- A real directory entry as listed by the OS: inode, name, file type. -/
abbrev DirChild : Type := Nat × String × Nat

/-- Embeds the FileManager state: the fd table, the readdir streams and the
id generator (fds_iter, a RangeInclusive over u64 yielding ids while any are
left). The getdents streams are treated separately below. -/
structure FileManagerState where
  open_files : List (Nat × RemoteFile)
  dir_streams : List (Nat × List DirChild)
  nextFd : Nat
deriving DecidableEq, Repr

/-- Lookup in the fd table. -/
def lookupFd (fm : FileManagerState) (fd : Nat) : Option RemoteFile :=
  (List.find? (fun e => e.1 == fd) fm.open_files).map (fun e => e.2)

/-- Replaces the entry of an fd in the table. -/
def updateFd (fm : FileManagerState) (fd : Nat) (rf : RemoteFile) :
    FileManagerState :=
  { fm with open_files :=
      fm.open_files.map (fun e => if e.1 == fd then (e.1, rf) else e) }

/-- Embeds fds_iter.next(): yields the next u64 id, none once exhausted. -/
def fdAlloc (fm : FileManagerState) : Option (Nat × FileManagerState) :=
  if fm.nextFd < 2 ^ 64 then some (fm.nextFd, { fm with nextFd := fm.nextFd + 1 })
  else none

/-- Embeds FileManager::read: a NotFound id, a NotFile directory id, or a
kernel read of at most buffer_size bytes from the cursor, advancing it. -/
def fmRead (fm : FileManagerState) (fd buffer_size : Nat) :
    FileManagerState × Except RespErr ReadFileResponse :=
  match lookupFd fm fd with
  | none => (fm, Except.error (RespErr.notFound fd))
  | some (RemoteFile.directory _) => (fm, Except.error (RespErr.notFile fd))
  | some (RemoteFile.file h) =>
      let bytes := (h.content.drop h.pos).take buffer_size
      let amount := bytes.length
      (updateFd fm fd (RemoteFile.file { h with pos := h.pos + amount }),
        Except.ok { bytes := bytes, read_amount := amount })

/-- Embeds FileManager::read_limited: read_at from start_from, the cursor is
left in place. -/
def fmReadLimited (fm : FileManagerState) (fd buffer_size start_from : Nat) :
    FileManagerState × Except RespErr ReadFileResponse :=
  match lookupFd fm fd with
  | none => (fm, Except.error (RespErr.notFound fd))
  | some (RemoteFile.directory _) => (fm, Except.error (RespErr.notFile fd))
  | some (RemoteFile.file h) =>
      let bytes := (h.content.drop start_from).take buffer_size
      (fm, Except.ok { bytes := bytes, read_amount := bytes.length })

/-- Kernel write of bytes at an offset: overwrites in place, zero-fills any
gap beyond the end, extends as needed. -/
def writeAt (content : List Nat) (start : Nat) (w : List Nat) : List Nat :=
  content.take start ++ List.replicate (start - content.length) 0 ++ w
    ++ content.drop (start + w.length)

/-- Embeds FileManager::write: writes at the cursor and advances it. -/
def fmWrite (fm : FileManagerState) (fd : Nat) (write_bytes : List Nat) :
    FileManagerState × Except RespErr WriteFileResponse :=
  match lookupFd fm fd with
  | none => (fm, Except.error (RespErr.notFound fd))
  | some (RemoteFile.directory _) => (fm, Except.error (RespErr.notFile fd))
  | some (RemoteFile.file h) =>
      (updateFd fm fd (RemoteFile.file
        { content := writeAt h.content h.pos write_bytes
          pos := h.pos + write_bytes.length }),
        Except.ok { written_amount := write_bytes.length })

/-- Embeds FileManager::write_limited: write_at start_from, cursor in place. -/
def fmWriteLimited (fm : FileManagerState) (fd start_from : Nat)
    (write_bytes : List Nat) :
    FileManagerState × Except RespErr WriteFileResponse :=
  match lookupFd fm fd with
  | none => (fm, Except.error (RespErr.notFound fd))
  | some (RemoteFile.directory _) => (fm, Except.error (RespErr.notFile fd))
  | some (RemoteFile.file h) =>
      (updateFd fm fd (RemoteFile.file
        { h with content := writeAt h.content start_from write_bytes }),
        Except.ok { written_amount := write_bytes.length })

/-- The three SeekFrom variants. -/
inductive SeekFromW
  | fromStart (n : Nat)
  | fromEnd (off : Int)
  | fromCurrent (off : Int)
deriving DecidableEq, Repr

/-- Embeds FileManager::seek: computes the new cursor, failing on a negative
target as the kernel does. -/
def fmSeek (fm : FileManagerState) (fd : Nat) (seek_from : SeekFromW) :
    FileManagerState × Except RespErr SeekFileResponse :=
  match lookupFd fm fd with
  | none => (fm, Except.error (RespErr.notFound fd))
  | some (RemoteFile.directory _) => (fm, Except.error (RespErr.notFile fd))
  | some (RemoteFile.file h) =>
      let target : Int :=
        match seek_from with
        | SeekFromW.fromStart n => (n : Int)
        | SeekFromW.fromEnd off => (h.content.length : Int) + off
        | SeekFromW.fromCurrent off => (h.pos : Int) + off
      if target < 0 then (fm, Except.error RespErr.invalidInput)
      else
        (updateFd fm fd (RemoteFile.file { h with pos := target.toNat }),
          Except.ok { result_offset := target.toNat })

/-- Embeds FileManager::open_relative: the ids are checked before the OS open
(the oracle stands for OpenOptions::open plus the metadata directory test). -/
def fmOpenRelative (osOpen : String → Except RespErr RemoteFile)
    (fm : FileManagerState) (relative_fd : Nat) (path : String) :
    FileManagerState × Except RespErr OpenFileResponse :=
  match lookupFd fm relative_fd with
  | none => (fm, Except.error (RespErr.notFound relative_fd))
  | some (RemoteFile.file _) =>
      (fm, Except.error (RespErr.notDirectory relative_fd))
  | some (RemoteFile.directory dir) =>
      match osOpen (dir ++ "/" ++ path) with
      | Except.error e => (fm, Except.error e)
      | Except.ok rf =>
          match fdAlloc fm with
          | none =>
              (fm, Except.error
                (RespErr.idsExhausted "FileManager::open_relative"))
          | some (fd, fm2) =>
              ({ fm2 with open_files := (fd, rf) :: fm2.open_files },
                Except.ok { fd := fd })

/-- Embeds FileManager::mkdirat: id checks first, then the OS mkdir oracle;
the fd table is never touched. -/
def fmMkdirat (osMkdir : String → Except RespErr Unit)
    (fm : FileManagerState) (dirfd : Nat) (path : String) :
    FileManagerState × Except RespErr Unit :=
  match lookupFd fm dirfd with
  | none => (fm, Except.error (RespErr.notFound dirfd))
  | some (RemoteFile.file _) => (fm, Except.error (RespErr.notDirectory dirfd))
  | some (RemoteFile.directory dir) => (fm, osMkdir (dir ++ "/" ++ path))

/-- Embeds FileManager::fdopen_dir: id checks, then a fresh id is drawn and
the directory stream obtained from the OS read_dir oracle is registered. -/
def fmFdopenDir (osReadDir : String → Except RespErr (List DirChild))
    (fm : FileManagerState) (fd : Nat) :
    FileManagerState × Except RespErr OpenFileResponse :=
  match lookupFd fm fd with
  | none => (fm, Except.error (RespErr.notFound fd))
  | some (RemoteFile.file _) => (fm, Except.error (RespErr.notDirectory fd))
  | some (RemoteFile.directory path) =>
      match fdAlloc fm with
      | none => (fm, Except.error (RespErr.idsExhausted "fdopen_dir"))
      | some (newFd, fm2) =>
          match osReadDir path with
          | Except.error e => (fm2, Except.error e)
          | Except.ok cs =>
              ({ fm2 with dir_streams := (newFd, cs) :: fm2.dir_streams },
                Except.ok { fd := newFd })

/-! ### getdents64 streams (mirrord/agent/src/file.rs)

The stream for an fd is created once and persists across calls; it yields the
synthetic current and parent entries and then the real children, tagging each
with a running position index. The record length computation
(DirEntryInternal::get_d_reclen64, in the protocol crate outside the files at
hand) is kept as an arbitrary function of the entry. -/

/-- Embeds DirEntryInternal. -/
structure DirEntryInternal where
  inode : Nat
  position : Nat
  name : String
  file_type : Nat
deriving DecidableEq, Repr

/-- The d_type value DT_DIR used for the synthetic entries. -/
def DT_DIR : Nat := 4

/-- Embeds GetDEnts64Stream as the list of entries it will yield:
get_current_and_parent_entries produces the dot entry at position 0 and,
when the directory has a parent, the dot-dot entry at position 1; the real
children follow with the running index continuing from the entries already
yielded. -/
def mkGetdentsStream (curIno : Nat) (parentIno : Option Nat)
    (children : List DirChild) : List DirEntryInternal :=
  let head : List DirEntryInternal :=
    { inode := curIno, position := 0, name := ".", file_type := DT_DIR } ::
      (match parentIno with
        | some p => [{ inode := p, position := 1, name := "..",
                       file_type := DT_DIR }]
        | none => [])
  head ++ children.enum.map (fun ei =>
    { inode := ei.2.1, position := head.length + ei.1, name := ei.2.2.1,
      file_type := ei.2.2.2 })

/-- The greedy loop of FileManager::getdents64: consume the next entry while
its record length still fits the remaining buffer, accumulating the total
record size. Returns the entries taken, the accumulated size and the
untouched remainder of the stream. -/
def takeFit (rl : DirEntryInternal → Nat) (buffer_size : Nat) :
    List DirEntryInternal → Nat →
      List DirEntryInternal × Nat × List DirEntryInternal
  | [], acc => ([], acc, [])
  | e :: rest, acc =>
      if rl e + acc ≤ buffer_size then
        let r := takeFit rl buffer_size rest (acc + rl e)
        (e :: r.1, r.2.1, r.2.2)
      else ([], acc, e :: rest)

/-- Embeds one FileManager::getdents64 call on the persistent stream: an
exhausted stream answers zero entries and result_size 0; otherwise entries
are taken while they fit in buffer_size. Returns the response pair (entries,
result_size) and the remaining stream kept for the next call. -/
def getdents64Call (rl : DirEntryInternal → Nat) (buffer_size : Nat)
    (stream : List DirEntryInternal) :
    (List DirEntryInternal × Nat) × List DirEntryInternal :=
  match stream with
  | [] => (([], 0), [])
  | e :: rest =>
      let r := takeFit rl buffer_size (e :: rest) 0
      ((r.1, r.2.1), r.2.2)

/-- Successive getdents64 calls with the given buffer sizes: for each call,
its buffer size, the entries it returned and its result_size, plus the final
remaining stream. -/
def runGetdents (rl : DirEntryInternal → Nat) :
    List Nat → List DirEntryInternal →
      List (Nat × List DirEntryInternal × Nat) × List DirEntryInternal
  | [], st => ([], st)
  | b :: bs, st =>
      let c := getdents64Call rl b st
      let r := runGetdents rl bs c.2
      ((b, c.1.1, c.1.2) :: r.1, r.2)

/-- Total record length of a list of entries. -/
def sumRl (rl : DirEntryInternal → Nat) (es : List DirEntryInternal) : Nat :=
  (es.map rl).sum

/-! ### Agent-side path resolution (mirrord/agent/src/file.rs, resolve_path)

Paths are modelled as their component lists (Unix: no Windows-style
prefixes), the filesystem as an oracle mapping a path to its symlink target
when it is a symlink. -/

/-- A path component as produced by Path::components on Unix. -/
inductive PComp
  | rootDir
  | curDir
  | parentDir
  | normal (s : String)
deriving DecidableEq, Repr

/-- A path as its component list. -/
abbrev PathC : Type := List PComp

/-- PathBuf::has_root on Unix: the path starts with the root component. -/
def pathHasRoot (p : PathC) : Bool :=
  match p with
  | PComp.rootDir :: _ => true
  | _ => false

/-- PathBuf::join: an absolute right argument replaces the whole path. -/
def pathJoin (a b : PathC) : PathC :=
  if pathHasRoot b then b else a ++ b

/-- PathBuf::pop: drops the last component; fails on an empty or bare-root
path. -/
def pathPop (p : PathC) : Option PathC :=
  if p = [] ∨ p = [PComp.rootDir] then none else some p.dropLast

/-- Path::strip_prefix of the root: drops the leading root components. -/
def stripRootC (p : PathC) : PathC :=
  p.dropWhile (fun c => c == PComp.rootDir)

/-- The loop of resolve_path over the remaining input components, carrying
temp_path. Root and current-directory components are skipped; a parent
component pops temp_path, rejecting with InvalidInput (the LFI check) when
there is nothing to pop; a normal component is looked up under
root.flatten(temp_path) and either the symlink target or the component itself is
joined onto temp_path, which is then re-stripped of any root. The unit error
stands for InvalidInput. -/
def resolveStep (fs : PathC → Option PathC) (root : PathC) :
    PathC → PathC → Except Unit PathC
  | temp, [] => Except.ok temp
  | temp, c :: cs =>
      match c with
      | PComp.rootDir => resolveStep fs root temp cs
      | PComp.curDir => resolveStep fs root temp cs
      | PComp.parentDir =>
          match pathPop temp with
          | none => Except.error ()
          | some t2 => resolveStep fs root t2 cs
      | PComp.normal s =>
          match fs (pathJoin (pathJoin root temp) [PComp.normal s]) with
          | some dest =>
              resolveStep fs root
                (if pathHasRoot (pathJoin temp dest)
                  then stripRootC (pathJoin temp dest)
                  else pathJoin temp dest) cs
          | none =>
              resolveStep fs root
                (if pathHasRoot (pathJoin temp [PComp.normal s])
                  then stripRootC (pathJoin temp [PComp.normal s])
                  else pathJoin temp [PComp.normal s]) cs

/-- Embeds resolve_path: walk the components starting from an empty
temp_path, then join the result under the root. -/
def resolvePath (fs : PathC → Option PathC) (path root : PathC) :
    Except Unit PathC :=
  match resolveStep fs root [] path with
  | Except.error e => Except.error e
  | Except.ok temp => Except.ok (pathJoin root temp)

/-- Semantic normalization of an absolute path: the directory names actually
reached once root, current and parent components are resolved, as the kernel
would when the returned path is used. -/
def semNorm (p : PathC) : List String :=
  p.foldl (fun acc c =>
    match c with
    | PComp.rootDir => []
    | PComp.curDir => acc
    | PComp.parentDir => acc.dropLast
    | PComp.normal s => acc ++ [s]) []

/-- Whether the names q lie under the names r (r leads q). -/
def listLeads (r q : List String) : Bool :=
  q.take r.length == r

/-! ### Claim theorems -/

/-- C10: converting a v2 DNS request down to v1 keeps exactly the hostname
and discards service_port, family, socktype, flags and protocol; upgrading a
v1 request fills service port 0, family Ipv4Only, socktype Any, zero flags
and protocol, and downgrading it again is the identity. -/
theorem dns_request_conversions : ∀ (r2 : GetAddrInfoRequestV2)
    (r1 : GetAddrInfoRequest),
    requestFromV2 r2 = { node := r2.node }
    ∧ requestToV2 r1 =
        { node := r1.node, service_port := 0, flags := 0,
          family := AddressFamily.Ipv4Only, socktype := SockType.Any,
          protocol := 0 }
    ∧ requestFromV2 (requestToV2 r1) = r1 := by
  intro r2 r1
  exact ⟨rfl, rfl, rfl⟩

/-- C2 counterexample: these two identifiers agree after sorting the two
addresses and the two ports independently, yet the PartialEq of the code does
not call them equal — equality accepts only identity or the full reversal,
so canonical agreement does not imply comparing equal. -/
theorem tcpSession_canonical_agree_but_not_eq :
    tcpSessionCanonical
        { source_addr := 1, dest_addr := 2, source_port := 10, dest_port := 20 }
      = tcpSessionCanonical
        { source_addr := 1, dest_addr := 2, source_port := 20, dest_port := 10 }
    ∧ tcpSessionEq
        { source_addr := 1, dest_addr := 2, source_port := 10, dest_port := 20 }
        { source_addr := 1, dest_addr := 2, source_port := 20, dest_port := 10 }
      = false := by
  exact ⟨by decide, by decide⟩

/-- C2 (amended): equality and hash are direction-insensitive — an identifier
and its full source/destination reversal compare equal and feed the hasher
the same sequence; comparing equal implies hashing equal; and hashing equal
is exactly agreement under the canonicalization that sorts the two addresses
and the two ports independently (which is strictly coarser than equality). -/
theorem tcpSession_direction_insensitive : ∀ a b : TcpSessionIdentifier,
    (tcpSessionEq a (tcpSessionReverse a) = true
      ∧ tcpSessionHashInput (tcpSessionReverse a) = tcpSessionHashInput a)
    ∧ (tcpSessionEq a b = true → tcpSessionHashInput a = tcpSessionHashInput b)
    ∧ (tcpSessionHashInput a = tcpSessionHashInput b ↔
        tcpSessionCanonical a = tcpSessionCanonical b) := by
  intro a b
  refine ⟨⟨?_, ?_⟩, ?_, ?_⟩
  · simp [tcpSessionEq, tcpSessionReverse]
  · rw [tcpSessionHashInput_eq_canonical, tcpSessionHashInput_eq_canonical]
    simp [tcpSessionReverse, Nat.max_comm, Nat.min_comm]
  · intro h
    rw [tcpSessionHashInput_eq_canonical, tcpSessionHashInput_eq_canonical]
    simp only [tcpSessionEq, Bool.or_eq_true, Bool.and_eq_true, beq_iff_eq] at h
    rcases h with ⟨⟨⟨e1, e2⟩, e3⟩, e4⟩ | ⟨⟨⟨e1, e2⟩, e3⟩, e4⟩ <;>
      rw [e1, e2, e3, e4] <;> simp [Nat.max_comm, Nat.min_comm]
  · rw [tcpSessionHashInput_eq_canonical, tcpSessionHashInput_eq_canonical]
    simp [tcpSessionCanonical, Prod.ext_iff]

/-- Witness for the direction-insensitivity theorem at a concrete identifier
and its reversal. -/
theorem tcpSession_direction_insensitive_witness :
    tcpSessionEq
        { source_addr := 1, dest_addr := 2, source_port := 10, dest_port := 20 }
        (tcpSessionReverse
          { source_addr := 1, dest_addr := 2, source_port := 10, dest_port := 20 })
      = true
    ∧ tcpSessionHashInput
        { source_addr := 1, dest_addr := 2, source_port := 10, dest_port := 20 }
      = tcpSessionHashInput
        { source_addr := 2, dest_addr := 1, source_port := 20, dest_port := 10 } := by
  refine ⟨(tcpSession_direction_insensitive
      { source_addr := 1, dest_addr := 2, source_port := 10, dest_port := 20 }
      { source_addr := 2, dest_addr := 1, source_port := 20, dest_port := 10 }).1.1, ?_⟩
  exact (tcpSession_direction_insensitive
      { source_addr := 1, dest_addr := 2, source_port := 10, dest_port := 20 }
      { source_addr := 2, dest_addr := 1, source_port := 20, dest_port := 10 }).2.1
    (by decide)

/-- C8: add_rule passes the prior counter value as the insertion index; on
success the counter advances by one (i32 arithmetic) and the new value is
returned; on failure the counter is rolled back, so the state is exactly the
prior one. -/
theorem addRule_counter_discipline (S : Type) (ops : IPTablesOps S)
    (st : ChainState S) (rule : String) (h1 : -(2 ^ 31) ≤ st.chain_size)
    (h2 : st.chain_size < 2 ^ 31) :
    addRule S ops st rule =
      match ops.insert_rule st.table st.chain_name rule st.chain_size with
      | Except.ok t2 =>
          ({ st with table := t2, chain_size := wrapI32 (st.chain_size + 1) },
            Except.ok (wrapI32 (st.chain_size + 1)))
      | Except.error e => (st, Except.error e) := by
  have hr : wrapI32 (wrapI32 (st.chain_size + 1) - 1) = st.chain_size :=
    wrapI32_rollback st.chain_size h1 h2
  unfold addRule
  cases hins : ops.insert_rule st.table st.chain_name rule st.chain_size with
  | ok t2 => simp [hins]
  | error e => simp [hins, hr]

/-- A concrete iptables implementation whose insert always succeeds,
recording chain, rule and index. -/
def recOps : IPTablesOps (List (String × String × Int)) :=
  { insert_rule := fun s chain rule idx => Except.ok ((chain, rule, idx) :: s) }

/-- Witness for the add_rule counter discipline at a concrete chain state. -/
theorem addRule_counter_discipline_witness :
    addRule (List (String × String × Int)) recOps
        { table := [], chain_name := "MIRRORD_INPUT", chain_size := 1 }
        "-j RETURN"
      = ({ table := [("MIRRORD_INPUT", "-j RETURN", 1)],
           chain_name := "MIRRORD_INPUT", chain_size := 2 },
          Except.ok 2) := by
  have h := addRule_counter_discipline (List (String × String × Int)) recOps
    { table := [], chain_name := "MIRRORD_INPUT", chain_size := 1 }
    "-j RETURN" (by decide) (by decide)
  rw [h]
  have hw : wrapI32 2 = 2 := by decide
  simp [recOps, hw]

theorem chainRules_cons (name : String) (x : String × List String)
    (l : NatTable) :
    chainRules (x :: l) name =
      if x.1 == name then some x.2 else chainRules l name := by
  cases hx : (x.1 == name) <;> simp [chainRules, hx]

theorem chainRules_setChain (t : NatTable) (name : String) (rs : List String) :
    chainRules (setChain t name rs) name =
      if (chainRules t name).isSome then some rs else none := by
  induction t with
  | nil => simp [chainRules, setChain]
  | cons c t ih =>
      have hset : setChain (c :: t) name rs
          = (if c.1 == name then (c.1, rs) else c) :: setChain t name rs := rfl
      cases hc : (c.1 == name) with
      | true =>
          rw [hset, if_pos hc, chainRules_cons, chainRules_cons]
          simp [hc]
      | false =>
          rw [hset, if_neg (by simp [hc]), chainRules_cons, chainRules_cons]
          simp [hc, ih]

theorem chainRules_filter_out (t : NatTable) (name : String) :
    chainRules (List.filter (fun c => c.1 != name) t) name = none := by
  induction t with
  | nil => rfl
  | cons c t ih =>
      simp only [bne] at ih ⊢
      cases hc : (c.1 == name) <;>
        simp [List.filter_cons, hc, ih, chainRules_cons]

theorem chainRules_append_new (t : NatTable) (name : String)
    (h : chainRules t name = none) :
    chainRules (t ++ [(name, [])]) name = some [] := by
  induction t with
  | nil => simp [chainRules]
  | cons c t ih =>
      rw [chainRules_cons] at h
      rw [List.cons_append, chainRules_cons]
      cases hc : (c.1 == name) with
      | true => rw [hc] at h; simp at h
      | false =>
          rw [hc] at h
          simp at h ⊢
          exact ih h

/-- C7 (amended): creating a chain through the wrapper places it in the nat
table seeded with the terminal RETURN rule; dropping the handle runs flush
then delete and swallows any error, so whenever the removal commands succeed
— in particular whenever the chain exists and no jump rule elsewhere still
references it — the chain is absent from the table afterwards. When deletion
fails with the chain still present, the chain survives the drop. -/
theorem chain_create_drop (t : NatTable) (name : String) :
    (∀ t2, createChainW t name = Except.ok t2 →
        chainRules t2 name = some ["-j RETURN"])
    ∧ ((removeChainW t name).2 = Except.ok () →
        chainRules (dropChain t name) name = none)
    ∧ ((chainRules t name).isSome = true →
        chainReferenced (setChain t name []) name = false →
        chainRules (dropChain t name) name = none) := by
  refine ⟨?_, ?_, ?_⟩
  · intro t2 hok
    unfold createChainW newChain at hok
    by_cases habs : (chainRules t name).isSome
    · simp [habs] at hok
    · simp only [habs, if_false, Bool.false_eq_true] at hok
      have hnone : chainRules t name = none := by
        cases hcr : chainRules t name
        · rfl
        · rw [hcr] at habs; simp at habs
      have happ : chainRules (t ++ [(name, [])]) name = some [] :=
        chainRules_append_new t name hnone
      unfold appendRule at hok
      rw [happ] at hok
      simp only [Except.ok.injEq] at hok
      subst hok
      rw [chainRules_setChain]
      simp [happ]
  · intro hok
    unfold removeChainW flushChainT at hok
    unfold dropChain removeChainW flushChainT
    by_cases habs : (chainRules t name).isSome
    · simp only [habs, if_true] at hok ⊢
      have h2 : chainRules (setChain t name []) name = some [] := by
        rw [chainRules_setChain]
        simp [habs]
      unfold deleteChainT at hok ⊢
      rw [h2] at hok ⊢
      simp only [List.isEmpty_nil, if_pos rfl] at hok ⊢
      by_cases href : chainReferenced (setChain t name []) name = true
      · rw [if_pos href] at hok
        cases hok
      · rw [if_neg href] at hok ⊢
        exact chainRules_filter_out (setChain t name []) name
    · simp only [habs, if_false, Bool.false_eq_true] at hok
      cases hok
  · intro habs href
    unfold dropChain removeChainW flushChainT
    simp only [habs, if_true]
    have h2 : chainRules (setChain t name []) name = some [] := by
      rw [chainRules_setChain]
      simp [habs]
    unfold deleteChainT
    rw [h2]
    simp only [List.isEmpty_nil, if_pos rfl, href, Bool.false_eq_true,
      if_false]
    exact chainRules_filter_out (setChain t name []) name

/-- Witness for the chain lifecycle theorem: a concrete creation in the empty
table, and a drop of an unreferenced chain, which removes it. -/
theorem chain_create_drop_witness :
    chainRules [("MIRRORD_INPUT", ["-j RETURN"])] "MIRRORD_INPUT"
      = some ["-j RETURN"]
    ∧ chainRules
        (dropChain [("MIRRORD_INPUT", ["-j RETURN"])] "MIRRORD_INPUT")
        "MIRRORD_INPUT" = none := by
  refine ⟨(chain_create_drop [] "MIRRORD_INPUT").1
    [("MIRRORD_INPUT", ["-j RETURN"])] (by rfl), ?_⟩
  exact (chain_create_drop [("MIRRORD_INPUT", ["-j RETURN"])]
    "MIRRORD_INPUT").2.2 (by decide) (by decide)

/-- A mounted table: the builtin PREROUTING chain still holds the jump rule
into the mirrord chain. -/
def exIptTable : NatTable :=
  [("PREROUTING", ["-j MIRRORD_INPUT"]),
   ("MIRRORD_INPUT", ["-j RETURN"])]

/-- C7 counterexample: dropping the handle while the jump rule still
references the chain flushes it, but the delete command fails and Drop
swallows the error, so the chain is still present in the table after the
drop — the claim's unconditional absence fails on this table. -/
theorem chain_drop_referenced_remains :
    chainRules (dropChain exIptTable "MIRRORD_INPUT") "MIRRORD_INPUT"
      = some []
    ∧ (removeChainW exIptTable "MIRRORD_INPUT").2
      = Except.error "chain referenced" := by
  exact ⟨by decide, by decide⟩

/-- C3: after any sequence of sniffer control events the installed BPF filter
matches the union of the ports subscribed by at least one client (the
drop-always filter when that union is empty), and one further event leaves
the number of filter installations unchanged exactly when it leaves that
union unchanged — idempotent subscribes and non-final unsubscribes install
nothing. -/
theorem sniffer_filter_matches_subscriptions : ∀ es : List SnifferEvent,
    (snifferRun es).filter = filterFor (topicsOf (snifferRun es).subs)
    ∧ ∀ e : SnifferEvent,
        (snifferStep (snifferRun es) e).installs = (snifferRun es).installs ↔
          topicsOf (snifferStep (snifferRun es) e).subs =
            topicsOf (snifferRun es).subs := by
  intro es
  constructor
  · have h0 : snifferInit.filter = filterFor (topicsOf snifferInit.subs) := by
      simp [snifferInit, topicsOf, filterFor]
    simpa [snifferRun] using snifferRun_filter_inv es snifferInit h0
  · intro e
    exact snifferStep_installs_iff (snifferRun es) e

/-- C6 (amended): a successful read returns a byte sequence whose length
equals the reported read_amount, and never more bytes than requested; for a
positive requested count, a returned count of zero happens exactly at
end-of-file (a requested count of zero returns zero bytes anywhere in the
file). -/
theorem fmRead_bounds (fm : FileManagerState) (fd buffer_size : Nat)
    (h : RemoteFileHandle)
    (hl : lookupFd fm fd = some (RemoteFile.file h)) :
    ∃ resp, (fmRead fm fd buffer_size).2 = Except.ok resp
      ∧ resp.bytes.length = resp.read_amount
      ∧ resp.read_amount ≤ buffer_size
      ∧ (0 < buffer_size →
          (resp.read_amount = 0 ↔ h.content.length ≤ h.pos)) := by
  have hcomp : (fmRead fm fd buffer_size).2 = Except.ok
      { bytes := (h.content.drop h.pos).take buffer_size
        read_amount := ((h.content.drop h.pos).take buffer_size).length } := by
    simp [fmRead, hl]
  refine ⟨_, hcomp, rfl, ?_, ?_⟩
  · simp only [List.length_take, List.length_drop]
    omega
  · intro hn
    simp only [List.length_take, List.length_drop]
    omega

/-- A concrete manager holding one two-byte file at id 7. -/
def exReadFm : FileManagerState :=
  { open_files := [(7, RemoteFile.file { content := [97, 98], pos := 0 })]
    dir_streams := []
    nextFd := 8 }

/-- Witness for the read bounds theorem at the concrete manager. -/
theorem fmRead_bounds_witness :
    ({ bytes := [97, 98], read_amount := 2 } : ReadFileResponse).bytes.length
      = ({ bytes := [97, 98], read_amount := 2 } : ReadFileResponse).read_amount
    ∧ ({ bytes := [97, 98], read_amount := 2 } : ReadFileResponse).read_amount
      ≤ 5 := by
  obtain ⟨resp, he, h1, h2, h3⟩ :=
    fmRead_bounds exReadFm 7 5 { content := [97, 98], pos := 0 } rfl
  have hval : (fmRead exReadFm 7 5).2
      = Except.ok { bytes := [97, 98], read_amount := 2 } := rfl
  have hresp : resp = { bytes := [97, 98], read_amount := 2 } :=
    Except.ok.inj (he.symm.trans hval)
  rw [← hresp]
  exact ⟨h1, h2⟩

/-- C6 counterexample: a read with requested count zero succeeds with
read_amount zero although the file is not at end-of-file, so a returned count
of zero does not always mean end-of-file. -/
theorem fmRead_zero_count_not_eof :
    (fmRead exReadFm 7 0).2 = Except.ok { bytes := [], read_amount := 0 }
    ∧ lookupFd exReadFm 7
        = some (RemoteFile.file { content := [97, 98], pos := 0 })
    ∧ ¬ (({ content := [97, 98], pos := 0 } : RemoteFileHandle).content.length
          ≤ ({ content := [97, 98], pos := 0 } : RemoteFileHandle).pos) := by
  refine ⟨rfl, rfl, by simp⟩

/-- C9: every file operation on an id bound to a directory fails with
NotFile, every directory operation on an id bound to a file fails with
NotDirectory, and any of them on an unbound id fails with NotFound; in all
these cases the manager state is returned unchanged. -/
theorem fd_table_misuse (osOpen : String → Except RespErr RemoteFile)
    (osMkdir : String → Except RespErr Unit)
    (osReadDir : String → Except RespErr (List DirChild))
    (fm : FileManagerState) (fd n start : Nat) (bytes : List Nat)
    (sf : SeekFromW) (path : String) :
    (lookupFd fm fd = none →
        fmRead fm fd n = (fm, Except.error (RespErr.notFound fd))
      ∧ fmReadLimited fm fd n start = (fm, Except.error (RespErr.notFound fd))
      ∧ fmWrite fm fd bytes = (fm, Except.error (RespErr.notFound fd))
      ∧ fmWriteLimited fm fd start bytes
          = (fm, Except.error (RespErr.notFound fd))
      ∧ fmSeek fm fd sf = (fm, Except.error (RespErr.notFound fd))
      ∧ fmOpenRelative osOpen fm fd path
          = (fm, Except.error (RespErr.notFound fd))
      ∧ fmMkdirat osMkdir fm fd path
          = (fm, Except.error (RespErr.notFound fd))
      ∧ fmFdopenDir osReadDir fm fd
          = (fm, Except.error (RespErr.notFound fd)))
    ∧ (∀ d, lookupFd fm fd = some (RemoteFile.directory d) →
        fmRead fm fd n = (fm, Except.error (RespErr.notFile fd))
      ∧ fmReadLimited fm fd n start = (fm, Except.error (RespErr.notFile fd))
      ∧ fmWrite fm fd bytes = (fm, Except.error (RespErr.notFile fd))
      ∧ fmWriteLimited fm fd start bytes
          = (fm, Except.error (RespErr.notFile fd))
      ∧ fmSeek fm fd sf = (fm, Except.error (RespErr.notFile fd)))
    ∧ (∀ h, lookupFd fm fd = some (RemoteFile.file h) →
        fmOpenRelative osOpen fm fd path
          = (fm, Except.error (RespErr.notDirectory fd))
      ∧ fmMkdirat osMkdir fm fd path
          = (fm, Except.error (RespErr.notDirectory fd))
      ∧ fmFdopenDir osReadDir fm fd
          = (fm, Except.error (RespErr.notDirectory fd))) := by
  refine ⟨?_, ?_, ?_⟩
  · intro hl
    exact ⟨by simp [fmRead, hl], by simp [fmReadLimited, hl],
      by simp [fmWrite, hl], by simp [fmWriteLimited, hl],
      by simp [fmSeek, hl], by simp [fmOpenRelative, hl],
      by simp [fmMkdirat, hl], by simp [fmFdopenDir, hl]⟩
  · intro d hl
    exact ⟨by simp [fmRead, hl], by simp [fmReadLimited, hl],
      by simp [fmWrite, hl], by simp [fmWriteLimited, hl],
      by simp [fmSeek, hl]⟩
  · intro h hl
    exact ⟨by simp [fmOpenRelative, hl], by simp [fmMkdirat, hl],
      by simp [fmFdopenDir, hl]⟩

/-- The empty file manager. -/
def emptyFm : FileManagerState :=
  { open_files := [], dir_streams := [], nextFd := 0 }

/-- Witness for the fd-table misuse theorem: a read on an unbound id of the
empty manager. -/
theorem fd_table_misuse_witness :
    fmRead emptyFm 3 5 = (emptyFm, Except.error (RespErr.notFound 3)) :=
  ((fd_table_misuse (fun _ => Except.error RespErr.ioError)
      (fun _ => Except.error RespErr.ioError)
      (fun _ => Except.error RespErr.ioError) emptyFm 3 5 0 []
      (SeekFromW.fromStart 0) "p").1 rfl).1

/-- C4: for a packet whose identifier is unknown, handle_packet inserts a
broadcast entry exactly when the packet is classified as a new session and
the destination port has at least one subscriber, otherwise it drops the
packet leaving the map unchanged; an entry (pre-existing, or just inserted
with one live receiver per successful try_send) is removed exactly when a
non-empty payload finds no live receiver or when the packet carries FIN or
RST (checked after the payload is sent). -/
theorem handlePacket_session_map (isHttp : List Nat → Bool)
    (subs : Finset (Nat × Nat)) (outcome : Nat → TrySendOutcome)
    (m : SessionMap) (id : TcpSessionIdentifier) (flags : Nat)
    (bytes : List Nat) :
    ((handlePacket isHttp subs outcome m id flags bytes).inserted = true ↔
      (lookupSession m id = none
        ∧ treatAsNewSession isHttp flags bytes = true
        ∧ topicSubscribers subs id.dest_port ≠ ∅))
    ∧ (lookupSession m id = none →
        (handlePacket isHttp subs outcome m id flags bytes).inserted = false →
        handlePacket isHttp subs outcome m id flags bytes
          = { sessions := m, inserted := false, removed := false })
    ∧ (∀ rcv, lookupSession m id = some rcv →
        ((handlePacket isHttp subs outcome m id flags bytes).removed = true ↔
            ((bytes ≠ [] ∧ rcv = 0) ∨ isClosedConnection flags = true))
        ∧ ((handlePacket isHttp subs outcome m id flags bytes).removed = true →
            (handlePacket isHttp subs outcome m id flags bytes).sessions
              = eraseSession m id)
        ∧ ((handlePacket isHttp subs outcome m id flags bytes).removed = false →
            (handlePacket isHttp subs outcome m id flags bytes).sessions = m)
        ∧ (handlePacket isHttp subs outcome m id flags bytes).inserted = false)
    ∧ (lookupSession m id = none →
        (handlePacket isHttp subs outcome m id flags bytes).inserted = true →
        ((handlePacket isHttp subs outcome m id flags bytes).removed = true ↔
            ((bytes ≠ []
              ∧ ((topicSubscribers subs id.dest_port).filter
                  (fun c => outcome c = TrySendOutcome.ok)).card = 0)
              ∨ isClosedConnection flags = true))
        ∧ ((handlePacket isHttp subs outcome m id flags bytes).removed = true →
            (handlePacket isHttp subs outcome m id flags bytes).sessions = m)
        ∧ ((handlePacket isHttp subs outcome m id flags bytes).removed = false →
            (handlePacket isHttp subs outcome m id flags bytes).sessions
              = (id, ((topicSubscribers subs id.dest_port).filter
                  (fun c => outcome c = TrySendOutcome.ok)).card) :: m)) := by
  cases hl : lookupSession m id with
  | some rcv =>
      by_cases hb : bytes = [] <;> by_cases hr0 : rcv = 0 <;>
        by_cases h2 : isClosedConnection flags = true <;>
        simp [handlePacket, hl, hb, hr0, h2]
  | none =>
      by_cases ht : treatAsNewSession isHttp flags bytes = true <;>
        by_cases hs : topicSubscribers subs id.dest_port = ∅ <;>
        by_cases hb : bytes = [] <;>
        by_cases hfe : (topicSubscribers subs id.dest_port).filter
          (fun c => outcome c = TrySendOutcome.ok) = ∅ <;>
        by_cases h2 : isClosedConnection flags = true <;>
        simp_all [handlePacket]

/-- A concrete packet scenario: client 0 subscribed to port 80, empty session
map, a bare SYN to port 80 with no payload, delivery succeeding. -/
def exPacketId : TcpSessionIdentifier :=
  { source_addr := 1, dest_addr := 2, source_port := 3, dest_port := 80 }

/-- Result of handle_packet on the concrete scenario. -/
def exPacketOut : PacketOutcome :=
  handlePacket (fun _ => false) {(0, 80)} (fun _ => TrySendOutcome.ok) []
    exPacketId 2 []

/-- Witness for the packet handling theorem: on the concrete scenario the
entry is inserted with one live receiver and kept. -/
theorem handlePacket_session_map_witness :
    exPacketOut.sessions = [(exPacketId, 1)]
    ∧ exPacketOut.inserted = true := by
  have h := handlePacket_session_map (fun _ => false) {(0, 80)}
    (fun _ => TrySendOutcome.ok) [] exPacketId 2 []
  have hins : (handlePacket (fun _ => false) {(0, 80)}
      (fun _ => TrySendOutcome.ok) [] exPacketId 2 []).inserted = true :=
    h.1.mpr ⟨rfl, by decide, by decide⟩
  obtain ⟨hiff, hrt, hrf⟩ := h.2.2.2 rfl hins
  have hrem : (handlePacket (fun _ => false) {(0, 80)}
      (fun _ => TrySendOutcome.ok) [] exPacketId 2 []).removed = false := by
    cases hc : (handlePacket (fun _ => false) {(0, 80)}
        (fun _ => TrySendOutcome.ok) [] exPacketId 2 []).removed
    · rfl
    · exact absurd (hiff.mp hc) (by decide)
  have hsess := hrf hrem
  constructor
  · show (handlePacket (fun _ => false) {(0, 80)}
      (fun _ => TrySendOutcome.ok) [] exPacketId 2 []).sessions
      = [(exPacketId, 1)]
    rw [hsess]
    decide
  · exact hins

theorem takeFit_split (rl : DirEntryInternal → Nat) (b : Nat) :
    ∀ (st : List DirEntryInternal) (acc : Nat),
      (takeFit rl b st acc).1 ++ (takeFit rl b st acc).2.2 = st := by
  intro st
  induction st with
  | nil => intro acc; simp [takeFit]
  | cons e rest ih =>
      intro acc
      by_cases hc : rl e + acc ≤ b
      · simp [takeFit, hc, ih]
      · simp [takeFit, hc]

theorem takeFit_size (rl : DirEntryInternal → Nat) (b : Nat) :
    ∀ (st : List DirEntryInternal) (acc : Nat),
      (takeFit rl b st acc).2.1 = acc + sumRl rl (takeFit rl b st acc).1 := by
  intro st
  induction st with
  | nil => intro acc; simp [takeFit, sumRl]
  | cons e rest ih =>
      intro acc
      by_cases hc : rl e + acc ≤ b
      · simp [takeFit, hc, ih, sumRl]
        omega
      · simp [takeFit, hc, sumRl]

theorem takeFit_le (rl : DirEntryInternal → Nat) (b : Nat) :
    ∀ (st : List DirEntryInternal) (acc : Nat), acc ≤ b →
      (takeFit rl b st acc).2.1 ≤ b := by
  intro st
  induction st with
  | nil => intro acc h; simpa [takeFit] using h
  | cons e rest ih =>
      intro acc h
      by_cases hc : rl e + acc ≤ b
      · simpa [takeFit, hc] using ih (acc + rl e) (by omega)
      · simpa [takeFit, hc] using h

theorem takeFit_progress (rl : DirEntryInternal → Nat) (b : Nat)
    (e : DirEntryInternal) (rest : List DirEntryInternal) (acc : Nat)
    (h : rl e + acc ≤ b) : (takeFit rl b (e :: rest) acc).1 ≠ [] := by
  simp [takeFit, h]

theorem getdents64Call_split (rl : DirEntryInternal → Nat) (b : Nat)
    (st : List DirEntryInternal) :
    (getdents64Call rl b st).1.1 ++ (getdents64Call rl b st).2 = st := by
  cases st with
  | nil => simp [getdents64Call]
  | cons e rest => simpa [getdents64Call] using takeFit_split rl b (e :: rest) 0

theorem getdents64Call_size (rl : DirEntryInternal → Nat) (b : Nat)
    (st : List DirEntryInternal) :
    (getdents64Call rl b st).1.2 = sumRl rl (getdents64Call rl b st).1.1
    ∧ (getdents64Call rl b st).1.2 ≤ b := by
  cases st with
  | nil => simp [getdents64Call, sumRl]
  | cons e rest =>
      constructor
      · simpa [getdents64Call] using takeFit_size rl b (e :: rest) 0
      · simpa [getdents64Call] using takeFit_le rl b (e :: rest) 0 (by omega)

theorem getdents64Call_progress (rl : DirEntryInternal → Nat) (b : Nat)
    (e : DirEntryInternal) (rest : List DirEntryInternal) (h : rl e ≤ b) :
    (getdents64Call rl b (e :: rest)).1.1 ≠ [] := by
  simpa [getdents64Call] using takeFit_progress rl b e rest 0 (by omega)

theorem runGetdents_split (rl : DirEntryInternal → Nat) (bufs : List Nat) :
    ∀ st : List DirEntryInternal,
      ((runGetdents rl bufs st).1.map (fun o => o.2.1)).flatten
        ++ (runGetdents rl bufs st).2 = st := by
  induction bufs with
  | nil => intro st; simp [runGetdents]
  | cons b bs ih =>
      intro st
      simp only [runGetdents, List.map_cons, List.flatten_cons]
      rw [List.append_assoc, ih (getdents64Call rl b st).2]
      exact getdents64Call_split rl b st

theorem runGetdents_sizes (rl : DirEntryInternal → Nat) (bufs : List Nat) :
    ∀ st : List DirEntryInternal, ∀ o ∈ (runGetdents rl bufs st).1,
      o.2.2 = sumRl rl o.2.1 ∧ o.2.2 ≤ o.1 := by
  induction bufs with
  | nil => intro st o ho; simp [runGetdents] at ho
  | cons b bs ih =>
      intro st o ho
      simp only [runGetdents, List.mem_cons] at ho
      rcases ho with ho | ho
      · subst ho
        exact getdents64Call_size rl b st
      · exact ih (getdents64Call rl b st).2 o ho

theorem runGetdents_exhaust (rl : DirEntryInternal → Nat) (bufs : List Nat) :
    ∀ st : List DirEntryInternal,
      (∀ b ∈ bufs, ∀ e ∈ st, rl e ≤ b) → st.length ≤ bufs.length →
        (runGetdents rl bufs st).2 = [] := by
  induction bufs with
  | nil =>
      intro st hsuff hlen
      have : st = [] := List.length_eq_zero.mp (Nat.le_zero.mp hlen)
      subst this
      simp [runGetdents]
  | cons b bs ih =>
      intro st hsuff hlen
      cases st with
      | nil =>
          simp only [runGetdents, getdents64Call]
          exact ih [] (by simp) (by simp)
      | cons e rest =>
          have hsplit := getdents64Call_split rl b (e :: rest)
          have hne : (getdents64Call rl b (e :: rest)).1.1 ≠ [] :=
            getdents64Call_progress rl b e rest
              (hsuff b (by simp) e (by simp))
          have hlen2 : (getdents64Call rl b (e :: rest)).2.length ≤ bs.length := by
            have hlensum := congrArg List.length hsplit
            simp only [List.length_append] at hlensum
            have h1 : 1 ≤ (getdents64Call rl b (e :: rest)).1.1.length := by
              cases hx : (getdents64Call rl b (e :: rest)).1.1 with
              | nil => exact absurd hx hne
              | cons x xs => simp
            simp only [List.length_cons] at hlen hlensum
            omega
          have hmem : ∀ x ∈ (getdents64Call rl b (e :: rest)).2, x ∈ e :: rest := by
            intro x hx
            rw [← hsplit]
            exact List.mem_append_right _ hx
          simp only [runGetdents]
          exact ih (getdents64Call rl b (e :: rest)).2
            (fun b2 hb2 e2 he2 => hsuff b2 (by simp [hb2]) e2 (hmem e2 he2))
            hlen2

/-- C5 (amended): for a directory stream, provided each call's buffer is
large enough for the next entry (here: for every entry), successive
getdents64 calls produce exactly the dot entry, the dot-dot entry when the
directory has a parent, and every real child once, in order, with the
synthetic position indices; each call returns whole entries whose record
lengths sum to the reported result_size and fit the requested buffer; with
enough calls the stream is exhausted, and any call on the exhausted stream
returns zero entries with result_size 0. -/
theorem getdents64_enumeration (rl : DirEntryInternal → Nat) (bufs : List Nat)
    (curIno : Nat) (parentIno : Option Nat) (children : List DirChild)
    (hsuff : ∀ b ∈ bufs, ∀ e ∈ mkGetdentsStream curIno parentIno children,
      rl e ≤ b) :
    (((runGetdents rl bufs (mkGetdentsStream curIno parentIno children)).1.map
        (fun o => o.2.1)).flatten
      ++ (runGetdents rl bufs (mkGetdentsStream curIno parentIno children)).2
      = mkGetdentsStream curIno parentIno children)
    ∧ (∀ o ∈ (runGetdents rl bufs
          (mkGetdentsStream curIno parentIno children)).1,
        o.2.2 = sumRl rl o.2.1 ∧ o.2.2 ≤ o.1)
    ∧ ((mkGetdentsStream curIno parentIno children).length ≤ bufs.length →
        (runGetdents rl bufs (mkGetdentsStream curIno parentIno children)).2
          = [])
    ∧ (∀ b, getdents64Call rl b [] = (([], 0), [])) := by
  refine ⟨runGetdents_split rl bufs _, runGetdents_sizes rl bufs _, ?_, ?_⟩
  · exact runGetdents_exhaust rl bufs _ hsuff
  · intro b
    simp [getdents64Call]

/-- Witness for the getdents enumeration theorem: a directory with one child,
three sufficient calls, fully drained. -/
theorem getdents64_enumeration_witness :
    (runGetdents (fun _ => 10) [30, 30, 30]
        (mkGetdentsStream 1 (some 2) [(3, "a", 8)])).2 = [] := by
  have h := getdents64_enumeration (fun _ => 10) [30, 30, 30] 1 (some 2)
    [(3, "a", 8)] (by decide)
  exact h.2.2.1 (by decide)

/-- The stream of a directory with one real child. -/
def exStream : List DirEntryInternal := mkGetdentsStream 1 (some 2) [(3, "a", 8)]

/-- C5 counterexample: with a buffer too small for the next entry, a call
returns zero entries and result_size 0 although the stream is not exhausted,
so "a call returning zero entries" does not imply the enumeration is
complete, and the sequence produced until such a call misses every entry. -/
theorem getdents64_small_buffer_stops_short :
    (getdents64Call (fun _ => 10) 0 exStream).1 = ([], 0)
    ∧ (getdents64Call (fun _ => 10) 0 exStream).2 ≠ [] := by
  exact ⟨by decide, by decide⟩

theorem pathHasRoot_false_of_rootFree (p : PathC) (h : PComp.rootDir ∉ p) :
    pathHasRoot p = false := by
  cases p with
  | nil => rfl
  | cons c rest => cases c <;> simp_all [pathHasRoot]

theorem stripRootC_of_rootFree (p : PathC) (h : PComp.rootDir ∉ p) :
    stripRootC p = p := by
  cases p with
  | nil => rfl
  | cons c rest =>
      have hc : ¬ c = PComp.rootDir := by
        intro hh
        exact h (hh ▸ List.mem_cons_self c rest)
      simp [stripRootC, List.dropWhile_cons, hc]

theorem stripRootC_rootFree (p : PathC) (h : PComp.rootDir ∉ p.drop 1) :
    PComp.rootDir ∉ stripRootC p := by
  cases p with
  | nil => simp [stripRootC]
  | cons c rest =>
      simp only [List.drop_succ_cons, List.drop_zero] at h
      by_cases hc : c = PComp.rootDir
      · subst hc
        have h1 : stripRootC (PComp.rootDir :: rest) = stripRootC rest := by
          simp [stripRootC, List.dropWhile_cons]
        rw [h1, stripRootC_of_rootFree rest h]
        exact h
      · rw [stripRootC_of_rootFree (c :: rest) (by simp [h, Ne.symm hc])]
        simp [h, Ne.symm hc]

theorem step_temp_rootFree (temp dest : PathC)
    (htemp : PComp.rootDir ∉ temp) (hdest : PComp.rootDir ∉ dest.drop 1) :
    PComp.rootDir ∉
      (if pathHasRoot (pathJoin temp dest)
        then stripRootC (pathJoin temp dest) else pathJoin temp dest) := by
  by_cases hb : pathHasRoot dest = true
  · have hj : pathJoin temp dest = dest := by simp [pathJoin, hb]
    rw [hj]
    by_cases hr : pathHasRoot dest = true
    · rw [if_pos hr]
      exact stripRootC_rootFree dest hdest
    · exact absurd hb hr
  · have hdf : PComp.rootDir ∉ dest := by
      cases dest with
      | nil => simp
      | cons c rest =>
          simp only [List.drop_succ_cons, List.drop_zero] at hdest
          cases c <;> simp_all [pathHasRoot]
    have hj : pathJoin temp dest = temp ++ dest := by
      simp [pathJoin, hb]
    have htd : PComp.rootDir ∉ temp ++ dest := by
      simp [List.mem_append, htemp, hdf]
    have hroot : pathHasRoot (temp ++ dest) = false :=
      pathHasRoot_false_of_rootFree _ htd
    rw [hj, if_neg (by simp [hroot])]
    exact htd

theorem resolveStep_rootFree (fs : PathC → Option PathC) (root : PathC)
    (Hwf : ∀ p d, fs p = some d → PComp.rootDir ∉ d.drop 1) :
    ∀ (cs temp final : PathC), PComp.rootDir ∉ temp →
      resolveStep fs root temp cs = Except.ok final →
        PComp.rootDir ∉ final := by
  intro cs
  induction cs with
  | nil =>
      intro temp final h hok
      simp only [resolveStep, Except.ok.injEq] at hok
      exact hok ▸ h
  | cons c cs ih =>
      intro temp final h hok
      cases c with
      | rootDir =>
          simp only [resolveStep] at hok
          exact ih temp final h hok
      | curDir =>
          simp only [resolveStep] at hok
          exact ih temp final h hok
      | parentDir =>
          simp only [resolveStep] at hok
          cases hp : pathPop temp with
          | none => rw [hp] at hok; cases hok
          | some t2 =>
              rw [hp] at hok
              have ht2 : PComp.rootDir ∉ t2 := by
                have hd : t2 = temp.dropLast := by
                  unfold pathPop at hp
                  by_cases hc : temp = [] ∨ temp = [PComp.rootDir]
                  · simp [hc] at hp
                  · simp [hc] at hp
                    exact hp.symm
                rw [hd]
                intro hm
                exact h (List.dropLast_subset temp hm)
              exact ih t2 final ht2 hok
      | normal s =>
          simp only [resolveStep] at hok
          cases hfs : fs (pathJoin (pathJoin root temp) [PComp.normal s]) with
          | some dest =>
              rw [hfs] at hok
              exact ih _ final
                (step_temp_rootFree temp dest h
                  (Hwf _ dest hfs)) hok
          | none =>
              rw [hfs] at hok
              exact ih _ final
                (step_temp_rootFree temp [PComp.normal s] h (by simp)) hok

/-- C1 (amended): when every symlink target is a well-formed path (no root
component after its head), a successful resolve_path returns the root path
syntactically extended by root-less components — the root path is always a
prefix of the returned path — and a parent component of the input that would
climb above the root is rejected with InvalidInput; however the returned
suffix may still contain parent components coming from symlink targets,
which the walk never re-examines. -/
theorem resolvePath_stays_under_root (fs : PathC → Option PathC)
    (path root : PathC)
    (Hwf : ∀ p d, fs p = some d → PComp.rootDir ∉ d.drop 1) :
    (∀ final, resolvePath fs path root = Except.ok final →
        ∃ rest, PComp.rootDir ∉ rest ∧ final = root ++ rest)
    ∧ (∀ cs, resolveStep fs root [] (PComp.parentDir :: cs)
        = Except.error ()) := by
  constructor
  · intro final hok
    unfold resolvePath at hok
    cases hstep : resolveStep fs root [] path with
    | error e => rw [hstep] at hok; cases hok
    | ok temp =>
        rw [hstep] at hok
        have hfree : PComp.rootDir ∉ temp :=
          resolveStep_rootFree fs root Hwf path [] temp (by simp) hstep
        have hjoin : pathJoin root temp = root ++ temp := by
          simp [pathJoin, pathHasRoot_false_of_rootFree temp hfree]
        refine ⟨temp, hfree, ?_⟩
        have : final = pathJoin root temp := (Except.ok.inj hok).symm
        rw [this, hjoin]
  · intro cs
    simp [resolveStep, pathPop]

/-- The target root used in the concrete resolution scenario. -/
def exRoot : PathC :=
  [PComp.rootDir, PComp.normal "proc", PComp.normal "1", PComp.normal "root"]

/-- The requested absolute path in the concrete resolution scenario. -/
def exPath : PathC := [PComp.rootDir, PComp.normal "a"]

/-- The relative symlink target climbing out of the root. -/
def exDest : PathC :=
  [PComp.parentDir, PComp.parentDir, PComp.normal "etc", PComp.normal "passwd"]

/-- A filesystem with a single symlink: the entry a under the root points at
a relative target full of parent components. -/
def exFs : PathC → Option PathC := fun p =>
  if p = exRoot ++ [PComp.normal "a"] then some exDest else none

theorem exFs_wf : ∀ p d, exFs p = some d → PComp.rootDir ∉ d.drop 1 := by
  intro p d h
  unfold exFs at h
  by_cases hp : p = exRoot ++ [PComp.normal "a"]
  · rw [if_pos hp] at h
    have : exDest = d := Option.some.inj h
    rw [← this]
    decide
  · rw [if_neg hp] at h
    cases h

/-- Witness for the path resolution theorem: a leading parent component is
rejected with InvalidInput under the concrete filesystem. -/
theorem resolvePath_stays_under_root_witness :
    resolveStep exFs exRoot [] (PComp.parentDir :: []) = Except.error () :=
  (resolvePath_stays_under_root exFs exPath exRoot exFs_wf).2 []

/-- C1 counterexample: resolving the path a under the root succeeds, but the
symlink target's parent components survive into the result, whose semantic
normalization escapes the root — the resolved path does not stay under the
target root. -/
theorem resolvePath_symlink_escape :
    resolvePath exFs exPath exRoot = Except.ok (exRoot ++ exDest)
    ∧ semNorm (exRoot ++ exDest) = ["proc", "etc", "passwd"]
    ∧ semNorm exRoot = ["proc", "1", "root"]
    ∧ listLeads (semNorm exRoot) (semNorm (exRoot ++ exDest)) = false := by
  exact ⟨by decide, by decide, by decide, by decide⟩
